import Mathlib

namespace Al3bara

/-- Image attachment shape (`types.ts`). -/
structure Image where
  name : String
  url : String
deriving Repr, DecidableEq

/-- Item line inside a transaction (`types.ts` `TransactionItem`). -/
structure TransactionItem where
  id : String
  name : String
  quantity : ℚ
  pricePerKilo : ℚ
  image : Option Image
deriving Repr, DecidableEq

/-- Ledger transaction (`types.ts` `Transaction`).  Amounts are modelled as
exact rationals; Firestore `Timestamp`s are modelled as epoch milliseconds
(`Nat`), with `Option` for optional/absent fields.  The optional `items?`
array is modelled as a plain list (absence as `[]`). -/
structure Transaction where
  id : String
  amount : ℚ
  notes : String
  date : Option Nat
  isSettled : Bool
  items : List TransactionItem
  entityId : Option String
  image : Option Image
deriving Repr, DecidableEq

/-- The `archiveType` enumeration (`types.ts` `Client.archiveType`). -/
inductive ArchiveType where
  | entities
  | work
  | advances
deriving Repr, DecidableEq

/-- Advance/work client (`types.ts` `Client`). -/
structure Client where
  id : String
  userId : String
  name : String
  transactions : List Transaction
  isBuyer : Option Bool
  isArchived : Option Bool
  archiveType : Option ArchiveType
  phone : Option String
deriving Repr, DecidableEq

/-- Purchased lot (`types.ts` `Lot`). -/
structure Lot where
  id : String
  lotNumber : String
  name : String
  quantity : String
  totalValue : ℚ
  value30 : ℚ
  value70 : ℚ
  is70Paid : Option Bool
  isArchived : Bool
deriving Repr, DecidableEq

/-- Auction session entity (`types.ts` `Entity`); `auctionDate` is optional
millis to model the source's defensive `auctionDate || Timestamp.now()` and
`typeof toMillis === 'function'` guards. -/
structure Entity where
  id : String
  userId : String
  name : String
  buyerName : Option String
  auctionDate : Option Nat
  lots : List Lot
deriving Repr, DecidableEq

/-- Client balance: `client.transactions.reduce((acc, t) => acc + (t.amount || 0), 0)`
(the balance reduce used for client summaries and the settle button).
`t.amount || 0` coincides with `t.amount` over exact rationals. -/
def computeClientBalance (transactions : List Transaction) : ℚ :=
  transactions.foldl (fun acc t => acc + t.amount) 0

/-- Modelled from the spec: the locale date-formatting collaborator (§6) used
only to build persisted `notes` strings; the source's
`toDate().toLocaleDateString('ar-EG', ...)` is not embeddable, and the spec
requires only a deterministic string per timestamp.  The `none` branch mirrors
the source's missing-timestamp fallback text. -/
def formatDate (timestamp : Option Nat) : String :=
  match timestamp with
  | none => "لا يوجد تاريخ"
  | some d => toString d

/-- Matching test `t.entityId === entityId` for a string `entityId` (strict equality:
an absent `entityId` never matches). -/
def txMatches (entityId : String) (t : Transaction) : Bool :=
  t.entityId = some entityId

/-- Active-lot value: `(lots || []).filter(l => !l.isArchived)` then
`reduce((sum, l) => sum + (l.totalValue || 0), 0)`  (`syncBuyerCommission`
step 1; `l.totalValue || 0` coincides with `l.totalValue` over exact
rationals). -/
def activeLotsTotal (lots : List Lot) : ℚ :=
  (lots.filter (fun l => !l.isArchived)).foldl (fun sum l => sum + l.totalValue) 0

/-- Commission rule `commission = totalValue * 0.005` (0.5%). -/
def commissionOf (e : Entity) : ℚ :=
  activeLotsTotal e.lots * (5 / 1000)

/-- The commission note string `عمولة 0.5% عن جلسة بتاريخ ${formatDate(auctionDate)}`. -/
def commissionNotes (e : Entity) : String :=
  "عمولة 0.5% عن جلسة بتاريخ " ++ formatDate e.auctionDate

/-- Whether the client's transaction list already carries this entity's
commission: `client.transactions?.findIndex(t => t.entityId === entityId) !== -1`. -/
def hasCommissionTx (entityId : String) (c : Client) : Bool :=
  c.transactions.any (txMatches entityId)

/-- Removal write `client.transactions.filter(t => t.entityId !== entityId)` applied to a
client (the stale/zero-commission removal write). -/
def stripCommissionTx (entityId : String) (c : Client) : Client :=
  { c with transactions := c.transactions.filter (fun t => !txMatches entityId t) }

/-- Replace the transaction at the first index satisfying `p` (the source's
`findIndex` followed by `updatedTransactions[transactionIndex] = ...`). -/
def updateFirstMatching (p : Transaction → Bool) (f : Transaction → Transaction) :
    List Transaction → List Transaction
  | [] => []
  | t :: ts => if p t then f t :: ts else t :: updateFirstMatching p f ts

/-- The overwrite applied to an existing commission transaction when the
current buyer still owns it and the commission is positive
(`{...old, amount: -commission, date: auctionDate || Timestamp.now(), notes, isSettled: true}`). -/
def commissionUpdate (e : Entity) (now : Nat) (t : Transaction) : Transaction :=
  { t with
    amount := -commissionOf e
    date := some (e.auctionDate.getD now)
    notes := commissionNotes e
    isSettled := true }

/-- The freshly created commission transaction of `syncBuyerCommission` step 3. -/
def newCommissionTx (e : Entity) (now : Nat) (freshId : String) : Transaction :=
  { id := freshId ++ "_comm"
    entityId := some e.id
    amount := -commissionOf e
    notes := commissionNotes e
    date := some (e.auctionDate.getD now)
    isSettled := true
    items := []
    image := none }

/-- The `for (const client of clients)` scan of `syncBuyerCommission`
(step 2).  Returns the advance-client list as left by the per-client
`updateDoc` writes together with a flag recording whether the loop hit an
early `return` (Case A).  Case A with positive commission overwrites the
first matching transaction and marks the client a buyer; Case A with zero
commission and Case B both filter out every matching transaction; Case B
continues the scan. -/
def syncScan (e : Entity) (now : Nat) : List Client → List Client × Bool
  | [] => ([], false)
  | c :: rest =>
    if hasCommissionTx e.id c then
      if e.buyerName = some c.name then
        if 0 < commissionOf e then
          ({ c with
              transactions := updateFirstMatching (txMatches e.id) (commissionUpdate e now) c.transactions
              isBuyer := some true } :: rest, true)
        else
          (stripCommissionTx e.id c :: rest, true)
      else
        (stripCommissionTx e.id c :: (syncScan e now rest).1, (syncScan e now rest).2)
    else
      (c :: (syncScan e now rest).1, (syncScan e now rest).2)

/-- Truthiness of `buyerName` in the step-3 guard `commission > 0 && buyerName`
(an absent or empty name is falsy). -/
def buyerNameTruthy (e : Entity) : Bool :=
  match e.buyerName with
  | some s => s ≠ ""
  | none => false

/-- Reconciliation `syncBuyerCommission(entityData)` as a transformer of the advance-client
namespace.  After the scan (step 2), if no early return happened and
`commission > 0 && buyerName`, step 3 looks the buyer up by name in the
*original* state snapshot, then either rewrites that document's transaction
array (appending the new commission transaction to the snapshot's list) or
creates a brand-new buyer client. -/
def syncBuyerCommission (e : Entity) (uid : String) (now : Nat)
    (freshId newClientId : String) (clients : List Client) : List Client :=
  if (syncScan e now clients).2 then (syncScan e now clients).1
  else if 0 < commissionOf e ∧ buyerNameTruthy e then
    match clients.find? (fun c => e.buyerName = some c.name) with
    | some buyerClient =>
        (syncScan e now clients).1.map (fun c =>
          if c.id = buyerClient.id then
            { c with
                transactions := buyerClient.transactions ++ [newCommissionTx e now freshId]
                isBuyer := some true }
          else c)
    | none =>
        (syncScan e now clients).1 ++
          [{ id := newClientId
             userId := uid
             name := e.buyerName.getD ""
             transactions := [newCommissionTx e now freshId]
             isBuyer := some true
             isArchived := none
             archiveType := none
             phone := none }]
  else (syncScan e now clients).1

/-- The balancing transaction of `confirmSettleAndArchive`
(`{id: settle_..., amount: -total, notes: تسوية نهائية..., date: now, isSettled: true, items: []}`). -/
def settlementTx (total : ℚ) (now : Nat) : Transaction :=
  { id := "settle_" ++ toString now
    amount := -total
    notes := "تسوية نهائية - تم التسديد بالكامل"
    date := some now
    isSettled := true
    items := []
    entityId := none
    image := none }

/-- Settlement `confirmSettleAndArchive`: routes by which collection currently holds the
client's id (advance first), then overwrites that document's transactions
with the snapshot list plus the balancing transaction and sets the archive
flags.  If the id is in neither collection the source alerts and leaves both
untouched. -/
def confirmSettleAndArchive (advanceClients workClients : List Client)
    (client : Client) (total : ℚ) (now : Nat) : List Client × List Client :=
  if advanceClients.any (fun c => c.id = client.id) then
    (advanceClients.map (fun c =>
      if c.id = client.id then
        { c with
            transactions := client.transactions ++ [settlementTx total now]
            isArchived := some true
            archiveType := some ArchiveType.advances }
      else c), workClients)
  else if workClients.any (fun c => c.id = client.id) then
    (advanceClients, workClients.map (fun c =>
      if c.id = client.id then
        { c with
            transactions := client.transactions ++ [settlementTx total now]
            isArchived := some true
            archiveType := some ArchiveType.work }
      else c))
  else (advanceClients, workClients)

/-- The `total` the settle button passes to `handleSettleClient`:
`(client.transactions || []).reduce((acc, t) => acc + (t.amount || 0), 0)`. -/
def clientCardTotal (client : Client) : ℚ :=
  computeClientBalance client.transactions

/-- Restore `confirmRestoreClient`: routes by collection, then
`updateDoc({isArchived: false, archiveType: deleteField()})`; field deletion
is modelled as `none`. -/
def confirmRestoreClient (advanceClients workClients : List Client)
    (clientToRestore : Client) : List Client × List Client :=
  if advanceClients.any (fun c => c.id = clientToRestore.id) then
    (advanceClients.map (fun c =>
      if c.id = clientToRestore.id then
        { c with isArchived := some false, archiveType := none }
      else c), workClients)
  else if workClients.any (fun c => c.id = clientToRestore.id) then
    (advanceClients, workClients.map (fun c =>
      if c.id = clientToRestore.id then
        { c with isArchived := some false, archiveType := none }
      else c))
  else (advanceClients, workClients)

/-- Input record of `addPayment` (`paymentData`). -/
structure PaymentData where
  amount : ℚ
  notes : String
  date : Nat
  linkedTransactionId : Option String
  receiptImage : Option Image
deriving Repr, DecidableEq

/-- The payment transaction `addPayment` creates:
`amount: -Math.abs(paymentData.amount || 0)`, `notes: paymentData.notes || 'دفعة سداد'`,
`isSettled: true`, with the receipt image attached as a single item when given. -/
def paymentTx (p : PaymentData) (now : Nat) : Transaction :=
  { id := toString now
    amount := -|p.amount|
    notes := if p.notes = "" then "دفعة سداد" else p.notes
    date := some p.date
    isSettled := true
    items :=
      match p.receiptImage with
      | some img =>
          [{ id := "receipt_" ++ toString now
             name := "إيصال السداد"
             quantity := 0
             pricePerKilo := 0
             image := some img }]
      | none => []
    entityId := none
    image := none }

/-- Payment `addPayment`: appends the payment transaction, then, when a truthy
`linkedTransactionId` is given, forces `isSettled` on the matching
transaction. -/
def addPayment (p : PaymentData) (client : Client) (now : Nat) : Client :=
  let afterAppend := client.transactions ++ [paymentTx p now]
  let updated :=
    match p.linkedTransactionId with
    | some lid =>
        if lid = "" then afterAppend
        else afterAppend.map (fun t => if t.id = lid then { t with isSettled := true } else t)
    | none => afterAppend
  { client with transactions := updated }

/-- Truthiness of the optional `is70Paid` flag. -/
def lotIs70Paid (l : Lot) : Bool :=
  l.is70Paid = some true

def msPerDay : Nat := 24 * 60 * 60 * 1000

/-- Source `entities.flatMap(e => (e.lots || []).filter(l => l && !l.isArchived))`
(`DashboardMetrics`). -/
def allActiveLots (entities : List Entity) : List Lot :=
  entities.flatMap (fun e => e.lots.filter (fun l => !l.isArchived))

/-- Source `entities.find(e => e.lots && e.lots.some(l => l.id === lot.id))`. -/
def findLotEntity (entities : List Entity) (lot : Lot) : Option Entity :=
  entities.find? (fun e => e.lots.any (fun l => l.id = lot.id))

/-- The candidate list feeding the dashboard's upcoming-deadline sort: active
lots, unpaid (`!lot.is70Paid`), paired with their entity's auction date, kept
when that date exists and `auctionDate + 15 days > now` (strict). -/
def upcomingCandidates (entities : List Entity) (now : Nat) : List (Lot × Option Nat) :=
  (((allActiveLots entities).filter (fun l => !lotIs70Paid l)).map
      (fun lot => (lot, (findLotEntity entities lot).bind Entity.auctionDate))).filter
    (fun p =>
      match p.2 with
      | some d => decide (now < d + 15 * msPerDay)
      | none => false)

/-- The JS sort key `a.auctionDate ? a.auctionDate.toMillis() : 0`. -/
def upcomingKey (p : Lot × Option Nat) : Nat :=
  p.2.getD 0

/-- The comparator order of the `sort((a, b) => dateA - dateB)` call. -/
def upcomingLE (a b : Lot × Option Nat) : Prop :=
  upcomingKey a ≤ upcomingKey b

instance : DecidableRel upcomingLE := fun a b =>
  inferInstanceAs (Decidable (upcomingKey a ≤ upcomingKey b))

instance : IsTotal (Lot × Option Nat) upcomingLE :=
  ⟨fun a b => Nat.le_total (upcomingKey a) (upcomingKey b)⟩

instance : IsTrans (Lot × Option Nat) upcomingLE :=
  ⟨fun _ _ _ h h' => Nat.le_trans h h'⟩

/-- Dashboard `upcomingLot` of `DashboardMetrics`: sort the candidates ascending by
auction date (a stable sort models the JS array sort) and take element `[0]`. -/
def computeUpcomingDeadline (entities : List Entity) (now : Nat) :
    Option (Lot × Option Nat) :=
  ((upcomingCandidates entities now).insertionSort upcomingLE).head?

/-- Concrete data (spec §8 examples): active lots of value 1000/2000/500 and
an archived lot of 10000. -/
def egLot1 : Lot :=
  { id := "L1", lotNumber := "1", name := "lot1", quantity := "1",
    totalValue := 1000, value30 := 300, value70 := 700, is70Paid := none, isArchived := false }

def egLot2 : Lot :=
  { id := "L2", lotNumber := "2", name := "lot2", quantity := "1",
    totalValue := 2000, value30 := 600, value70 := 1400, is70Paid := none, isArchived := false }

def egLot3 : Lot :=
  { id := "L3", lotNumber := "3", name := "lot3", quantity := "1",
    totalValue := 500, value30 := 150, value70 := 350, is70Paid := none, isArchived := false }

def egLotArchived : Lot :=
  { id := "L4", lotNumber := "4", name := "lot4", quantity := "1",
    totalValue := 10000, value30 := 3000, value70 := 7000, is70Paid := none, isArchived := true }

def egEntity : Entity :=
  { id := "E1", userId := "u1", name := "Auction-7", buyerName := some "Ahmed",
    auctionDate := some 0, lots := [egLot1, egLot2, egLot3, egLotArchived] }

def egEntitySara : Entity := { egEntity with buyerName := some "Sara" }

def egEntityArchivedOnly : Entity := { egEntity with lots := [egLotArchived] }

def egEntityNoBuyer : Entity := { egEntity with buyerName := none }

/-- An existing commission transaction for entity `E1` on client `Ahmed`. -/
def egCommTx : Transaction :=
  { id := "T1", amount := -50, notes := "old commission", date := some 0,
    isSettled := true, items := [], entityId := some "E1", image := none }

def egAhmed : Client :=
  { id := "C1", userId := "u1", name := "Ahmed", transactions := [egCommTx],
    isBuyer := some true, isArchived := none, archiveType := none, phone := none }

/-- Plain purchase/payment transactions with amounts 500, -200, 150 (spec P1). -/
def egTxA : Transaction :=
  { id := "P1", amount := 500, notes := "", date := some 0, isSettled := false,
    items := [], entityId := none, image := none }

def egTxB : Transaction := { egTxA with id := "P2", amount := -200 }

def egTxC : Transaction := { egTxA with id := "P3", amount := 150 }

def egClientBal : Client :=
  { id := "C2", userId := "u1", name := "Ali", transactions := [egTxA, egTxB],
    isBuyer := none, isArchived := none, archiveType := none, phone := none }

def egArchivedClient : Client :=
  { egClientBal with
    id := "C3"
    isArchived := some true
    archiveType := some ArchiveType.advances }

/-- An archived, unpaid lot with a future deadline (C7 counterexample data). -/
def cexArchivedLot : Lot :=
  { id := "LX", lotNumber := "9", name := "lx", quantity := "1",
    totalValue := 100, value30 := 30, value70 := 70, is70Paid := none, isArchived := true }

def cexEntity : Entity :=
  { id := "EX", userId := "u1", name := "ex", buyerName := none,
    auctionDate := some 0, lots := [cexArchivedLot] }

/-- Two active unpaid lots with distinct future deadlines. -/
def wLotEarly : Lot :=
  { id := "W1", lotNumber := "1", name := "w1", quantity := "1",
    totalValue := 100, value30 := 30, value70 := 70, is70Paid := none, isArchived := false }

def wLotLate : Lot :=
  { id := "W2", lotNumber := "2", name := "w2", quantity := "1",
    totalValue := 100, value30 := 30, value70 := 70, is70Paid := none, isArchived := false }

def wEntEarly : Entity :=
  { id := "WE1", userId := "u1", name := "we1", buyerName := none,
    auctionDate := some 1000, lots := [wLotEarly] }

def wEntLate : Entity :=
  { id := "WE2", userId := "u1", name := "we2", buyerName := none,
    auctionDate := some 2000, lots := [wLotLate] }

/-- Number of commission transactions for `entityId` on one client. -/
def txCount (entityId : String) (c : Client) : Nat :=
  c.transactions.countP (txMatches entityId)

/-- Number of commission transactions for `entityId` across a client list. -/
def commissionTxCount (entityId : String) (clients : List Client) : Nat :=
  (clients.map (txCount entityId)).sum

theorem commissionTxCount_nil (eid : String) : commissionTxCount eid [] = 0 := rfl

theorem commissionTxCount_cons (eid : String) (c : Client) (cs : List Client) :
    commissionTxCount eid (c :: cs) = txCount eid c + commissionTxCount eid cs := by
  simp [commissionTxCount]

theorem txCount_eq_zero_iff (eid : String) (c : Client) :
    txCount eid c = 0 ↔ ∀ t ∈ c.transactions, ¬txMatches eid t := by
  simp [txCount, List.countP_eq_zero]

theorem hasCommissionTx_iff (eid : String) (c : Client) :
    hasCommissionTx eid c = true ↔ ¬txCount eid c = 0 := by
  simp [hasCommissionTx, txCount_eq_zero_iff, List.any_eq_true]

theorem txCount_strip (eid : String) (c : Client) :
    txCount eid (stripCommissionTx eid c) = 0 := by
  rw [txCount_eq_zero_iff]
  intro t ht
  simp only [stripCommissionTx, List.mem_filter] at ht
  simpa using ht.2

theorem commissionTxCount_eq_zero_iff (eid : String) (cs : List Client) :
    commissionTxCount eid cs = 0 ↔ ∀ c ∈ cs, txCount eid c = 0 := by
  simp [commissionTxCount, List.sum_eq_zero_iff]

theorem updateFirstMatching_countP (p : Transaction → Bool) (f : Transaction → Transaction)
    (hf : ∀ t, p (f t) = p t) (ts : List Transaction) :
    (updateFirstMatching p f ts).countP p = ts.countP p := by
  induction ts with
  | nil => rfl
  | cons t ts ih =>
    by_cases hp : p t = true
    · simp [updateFirstMatching, hp, List.countP_cons, hf]
    · simp only [Bool.not_eq_true] at hp
      simp [updateFirstMatching, hp, List.countP_cons, ih]

theorem updateFirstMatching_mem (p : Transaction → Bool) (f : Transaction → Transaction)
    (ts : List Transaction) (hone : ts.countP p ≤ 1) :
    ∀ t' ∈ updateFirstMatching p f ts, p t' = true → ∃ t ∈ ts, p t = true ∧ t' = f t := by
  induction ts with
  | nil => intro t' ht'; simp [updateFirstMatching] at ht'
  | cons t ts ih =>
    intro t' ht' hpt'
    by_cases hp : p t = true
    · simp only [updateFirstMatching, hp, if_pos] at ht'
      rcases List.mem_cons.mp ht' with h | h
      · exact ⟨t, List.mem_cons_self .., hp, h⟩
      · exfalso
        have hcount : ts.countP p = 0 := by
          have := List.countP_cons_of_pos (p := p) (l := ts) hp
          omega
        have := (List.countP_eq_zero.mp hcount) t' h
        exact this hpt'
    · simp only [Bool.not_eq_true] at hp
      simp only [updateFirstMatching, hp, Bool.false_eq_true, if_false] at ht'
      rcases List.mem_cons.mp ht' with h | h
      · exfalso; rw [h] at hpt'; rw [hpt'] at hp; cases hp
      · have hone' : ts.countP p ≤ 1 := by
          have hc : (t :: ts).countP p = ts.countP p :=
            List.countP_cons_of_neg p ts (by simp [hp])
          omega
        obtain ⟨u, hu, hpu, he⟩ := ih hone' t' h hpt'
        exact ⟨u, List.mem_cons_of_mem _ hu, hpu, he⟩

theorem txMatches_commissionUpdate (e : Entity) (now : Nat) (t : Transaction) :
    txMatches e.id (commissionUpdate e now t) = txMatches e.id t := by
  simp [txMatches, commissionUpdate]

theorem syncScan_spec (e : Entity) (now : Nat) (cs : List Client)
    (hone : commissionTxCount e.id cs ≤ 1) :
    commissionTxCount e.id (syncScan e now cs).1 ≤ 1 ∧
      ∀ c' ∈ (syncScan e now cs).1, ∀ t ∈ c'.transactions,
        txMatches e.id t = true → e.buyerName = some c'.name ∧ t.amount = -commissionOf e := by
  induction cs with
  | nil =>
    refine ⟨by simp [syncScan, commissionTxCount], ?_⟩
    intro c' hc'
    simp [syncScan] at hc'
  | cons c rest ih =>
    rw [commissionTxCount_cons] at hone
    by_cases h1 : hasCommissionTx e.id c = true
    · have hcpos : ¬txCount e.id c = 0 := (hasCommissionTx_iff _ _).mp h1
      have hrest0 : commissionTxCount e.id rest = 0 := by omega
      have hrestclean : ∀ c'' ∈ rest, txCount e.id c'' = 0 :=
        (commissionTxCount_eq_zero_iff _ _).mp hrest0
      by_cases h2 : e.buyerName = some c.name
      · by_cases h3 : 0 < commissionOf e
        · simp only [syncScan, h1, h2, h3, if_true, ite_true]
          constructor
          · rw [commissionTxCount_cons]
            have hcnt : txCount e.id
                ({ c with
                    transactions :=
                      updateFirstMatching (txMatches e.id) (commissionUpdate e now) c.transactions
                    isBuyer := some true } : Client) = txCount e.id c := by
              simp only [txCount]
              exact updateFirstMatching_countP _ _ (txMatches_commissionUpdate e now) _
            omega
          · intro c' hc' t ht hmt
            rcases List.mem_cons.mp hc' with hc' | hc'
            · subst hc'
              refine ⟨rfl, ?_⟩
              have hcle : c.transactions.countP (txMatches e.id) ≤ 1 := by
                simp only [txCount] at hone; omega
              obtain ⟨u, hu, hpu, heq⟩ :=
                updateFirstMatching_mem (txMatches e.id) (commissionUpdate e now)
                  c.transactions hcle t ht hmt
              rw [heq]
              simp [commissionUpdate]
            · exact absurd hmt ((txCount_eq_zero_iff _ _).mp (hrestclean c' hc') t ht)
        · simp only [syncScan, h1, h2, h3, if_true, ite_true, ite_false]
          constructor
          · rw [commissionTxCount_cons, txCount_strip]
            omega
          · intro c' hc' t ht hmt
            rcases List.mem_cons.mp hc' with hc' | hc'
            · subst hc'
              exact absurd hmt ((txCount_eq_zero_iff _ _).mp (txCount_strip _ _) t ht)
            · exact absurd hmt ((txCount_eq_zero_iff _ _).mp (hrestclean c' hc') t ht)
      · have hrle : commissionTxCount e.id rest ≤ 1 := by omega
        obtain ⟨ihc, ihm⟩ := ih hrle
        simp only [syncScan, h1, h2, if_true, ite_true, ite_false]
        constructor
        · rw [commissionTxCount_cons, txCount_strip]
          omega
        · intro c' hc' t ht hmt
          rcases List.mem_cons.mp hc' with hc' | hc'
          · subst hc'
            exact absurd hmt ((txCount_eq_zero_iff _ _).mp (txCount_strip _ _) t ht)
          · exact ihm c' hc' t ht hmt
    · have hc0 : txCount e.id c = 0 := by
        by_contra h
        exact h1 ((hasCommissionTx_iff _ _).mpr h)
      have hrle : commissionTxCount e.id rest ≤ 1 := by omega
      obtain ⟨ihc, ihm⟩ := ih hrle
      simp only [syncScan, h1, Bool.false_eq_true, ite_false]
      constructor
      · rw [commissionTxCount_cons]
        omega
      · intro c' hc' t ht hmt
        rcases List.mem_cons.mp hc' with hc' | hc'
        · subst hc'
          exact absurd hmt ((txCount_eq_zero_iff _ _).mp hc0 t ht)
        · exact ihm c' hc' t ht hmt

theorem syncScan_false_clean (e : Entity) (now : Nat) (cs : List Client)
    (hf : (syncScan e now cs).2 = false) :
    ∀ c' ∈ (syncScan e now cs).1, txCount e.id c' = 0 := by
  induction cs with
  | nil => intro c' hc'; simp [syncScan] at hc'
  | cons c rest ih =>
    by_cases h1 : hasCommissionTx e.id c = true
    · by_cases h2 : e.buyerName = some c.name
      · exfalso
        by_cases h3 : 0 < commissionOf e
        · simp [syncScan, h1, h2, h3] at hf
        · simp [syncScan, h1, h2, h3] at hf
      · simp only [syncScan, h1, h2, if_true, ite_true, ite_false] at hf ⊢
        intro c' hc'
        rcases List.mem_cons.mp hc' with hc' | hc'
        · subst hc'; exact txCount_strip _ _
        · exact ih hf c' hc'
    · have hc0 : txCount e.id c = 0 := by
        by_contra h
        exact h1 ((hasCommissionTx_iff _ _).mpr h)
      simp only [syncScan, h1, Bool.false_eq_true, ite_false] at hf ⊢
      intro c' hc'
      rcases List.mem_cons.mp hc' with hc' | hc'
      · subst hc'; exact hc0
      · exact ih hf c' hc'

theorem syncScan_false_orig (e : Entity) (now : Nat) (cs : List Client)
    (hf : (syncScan e now cs).2 = false) :
    ∀ c ∈ cs, e.buyerName = some c.name → txCount e.id c = 0 := by
  induction cs with
  | nil => intro c hc; simp at hc
  | cons c rest ih =>
    by_cases h1 : hasCommissionTx e.id c = true
    · by_cases h2 : e.buyerName = some c.name
      · exfalso
        by_cases h3 : 0 < commissionOf e
        · simp [syncScan, h1, h2, h3] at hf
        · simp [syncScan, h1, h2, h3] at hf
      · simp only [syncScan, h1, h2, if_true, ite_true, ite_false] at hf
        intro c' hc' hn
        rcases List.mem_cons.mp hc' with hc' | hc'
        · subst hc'; exact absurd hn h2
        · exact ih hf c' hc' hn
    · have hc0 : txCount e.id c = 0 := by
        by_contra h
        exact h1 ((hasCommissionTx_iff _ _).mpr h)
      simp only [syncScan, h1, Bool.false_eq_true, ite_false] at hf
      intro c' hc' hn
      rcases List.mem_cons.mp hc' with hc' | hc'
      · subst hc'; exact hc0
      · exact ih hf c' hc' hn

theorem syncScan_not_returned (e : Entity) (now : Nat) (cs : List Client)
    (h : ∀ c ∈ cs, hasCommissionTx e.id c = true → ¬e.buyerName = some c.name) :
    (syncScan e now cs).2 = false := by
  induction cs with
  | nil => simp [syncScan]
  | cons c rest ih =>
    have hrest : ∀ c' ∈ rest, hasCommissionTx e.id c' = true → ¬e.buyerName = some c'.name :=
      fun c' hc' => h c' (List.mem_cons_of_mem _ hc')
    by_cases h1 : hasCommissionTx e.id c = true
    · have h2 : ¬e.buyerName = some c.name := h c (List.mem_cons_self ..) h1
      simp only [syncScan, h1, h2, if_true, ite_true, ite_false]
      exact ih hrest
    · simp only [syncScan, h1, Bool.false_eq_true, ite_false]
      exact ih hrest

theorem syncScan_shape (e : Entity) (now : Nat) (cs : List Client) :
    ∀ c' ∈ (syncScan e now cs).1, ∃ c ∈ cs, c'.id = c.id ∧ c'.name = c.name := by
  induction cs with
  | nil => intro c' hc'; simp [syncScan] at hc'
  | cons c rest ih =>
    intro c' hc'
    by_cases h1 : hasCommissionTx e.id c = true
    · by_cases h2 : e.buyerName = some c.name
      · by_cases h3 : 0 < commissionOf e
        · simp only [syncScan, h1, h2, h3, if_true, ite_true] at hc'
          rcases List.mem_cons.mp hc' with hc' | hc'
          · subst hc'; exact ⟨c, List.mem_cons_self .., rfl, rfl⟩
          · exact ⟨c', List.mem_cons_of_mem _ hc', rfl, rfl⟩
        · simp only [syncScan, h1, h2, h3, if_true, ite_true, ite_false] at hc'
          rcases List.mem_cons.mp hc' with hc' | hc'
          · subst hc'; exact ⟨c, List.mem_cons_self .., rfl, rfl⟩
          · exact ⟨c', List.mem_cons_of_mem _ hc', rfl, rfl⟩
      · simp only [syncScan, h1, h2, if_true, ite_true, ite_false] at hc'
        rcases List.mem_cons.mp hc' with hc' | hc'
        · subst hc'; exact ⟨c, List.mem_cons_self .., rfl, rfl⟩
        · obtain ⟨c₀, hc₀, hid, hn⟩ := ih c' hc'
          exact ⟨c₀, List.mem_cons_of_mem _ hc₀, hid, hn⟩
    · simp only [syncScan, h1, Bool.false_eq_true, ite_false] at hc'
      rcases List.mem_cons.mp hc' with hc' | hc'
      · exact ⟨c, List.mem_cons_self .., by rw [hc'], by rw [hc']⟩
      · obtain ⟨c₀, hc₀, hid, hn⟩ := ih c' hc'
        exact ⟨c₀, List.mem_cons_of_mem _ hc₀, hid, hn⟩

theorem syncScan_map_id (e : Entity) (now : Nat) (cs : List Client) :
    (syncScan e now cs).1.map Client.id = cs.map Client.id := by
  induction cs with
  | nil => simp [syncScan]
  | cons c rest ih =>
    by_cases h1 : hasCommissionTx e.id c = true
    · by_cases h2 : e.buyerName = some c.name
      · by_cases h3 : 0 < commissionOf e
        · simp [syncScan, h1, h2, h3]
        · simp [syncScan, h1, h2, h3, stripCommissionTx]
      · simp [syncScan, h1, h2, stripCommissionTx, ih]
    · simp [syncScan, h1, ih]

theorem map_write_spec (eid bid : String) (T : List Transaction) (tx : Transaction)
    (htx : txMatches eid tx = true) :
    ∀ L : List Client, (∀ c ∈ L, txCount eid c = 0) → (L.map Client.id).Nodup →
      bid ∈ L.map Client.id → T.countP (txMatches eid) = 0 →
      commissionTxCount eid
          (L.map fun c => if c.id = bid then
            { c with transactions := T ++ [tx], isBuyer := some true } else c) = 1 ∧
        ∀ c' ∈ L.map fun c => if c.id = bid then
            { c with transactions := T ++ [tx], isBuyer := some true } else c,
          ∀ t ∈ c'.transactions, txMatches eid t = true →
            t = tx ∧ ∃ c₀ ∈ L, c₀.id = bid ∧ c'.name = c₀.name := by
  intro L
  induction L with
  | nil => intro _ _ hmem; simp at hmem
  | cons c L' ih =>
    intro hclean hnd hmem hT
    have hnd' : (L'.map Client.id).Nodup := (List.nodup_cons.mp hnd).2
    have hcnotin : c.id ∉ L'.map Client.id := (List.nodup_cons.mp hnd).1
    by_cases hc : c.id = bid
    · have hmap : (L'.map fun c => if c.id = bid then
          { c with transactions := T ++ [tx], isBuyer := some true } else c) = L' := by
        have : ∀ c' ∈ L', (if c'.id = bid then
            ({ c' with transactions := T ++ [tx], isBuyer := some true } : Client) else c') = c' := by
          intro c' hc'
          rw [if_neg]
          intro h
          exact hcnotin (hc ▸ h ▸ List.mem_map_of_mem Client.id hc')
        calc (L').map _ = L'.map id := List.map_congr_left this
          _ = L' := List.map_id L'
      constructor
      · simp only [List.map_cons]
        rw [if_pos hc, hmap, commissionTxCount_cons]
        have hhead : txCount eid ({ c with transactions := T ++ [tx], isBuyer := some true } : Client) = 1 := by
          simp [txCount, List.countP_append, hT, htx]
        have hrest : commissionTxCount eid L' = 0 :=
          (commissionTxCount_eq_zero_iff _ _).mpr fun c' hc' => hclean c' (List.mem_cons_of_mem _ hc')
        omega
      · simp only [List.map_cons]
        rw [if_pos hc, hmap]
        intro c' hc' t ht hmt
        rcases List.mem_cons.mp hc' with hc' | hc'
        · subst hc'
          have ht' : t ∈ T ++ [tx] := ht
          rcases List.mem_append.mp ht' with h | h
          · exact absurd hmt ((List.countP_eq_zero.mp hT) t h)
          · have : t = tx := by simpa using h
            exact ⟨this, c, List.mem_cons_self .., hc, rfl⟩
        · exact absurd hmt ((txCount_eq_zero_iff _ _).mp
            (hclean c' (List.mem_cons_of_mem _ hc')) t ht)
    · have hmem' : bid ∈ L'.map Client.id := by
        rw [List.map_cons] at hmem
        rcases List.mem_cons.mp hmem with h | h
        · exact absurd h.symm hc
        · exact h
      have hclean' : ∀ c'' ∈ L', txCount eid c'' = 0 :=
        fun c'' hc'' => hclean c'' (List.mem_cons_of_mem _ hc'')
      obtain ⟨ihc, ihm⟩ := ih hclean' hnd' hmem' hT
      constructor
      · simp only [List.map_cons]
        rw [if_neg hc, commissionTxCount_cons]
        have : txCount eid c = 0 := hclean c (List.mem_cons_self ..)
        omega
      · simp only [List.map_cons]
        rw [if_neg hc]
        intro c' hc' t ht hmt
        rcases List.mem_cons.mp hc' with hc' | hc'
        · rw [hc'] at ht
          exact absurd hmt ((txCount_eq_zero_iff _ _).mp (hclean c (List.mem_cons_self ..)) t ht)
        · obtain ⟨heq, c₀, hc₀, hbid, hname⟩ := ihm c' hc' t ht hmt
          exact ⟨heq, c₀, List.mem_cons_of_mem _ hc₀, hbid, hname⟩

theorem buyerNameTruthy_iff (e : Entity) :
    buyerNameTruthy e = true ↔ ∃ s, e.buyerName = some s ∧ s ≠ "" := by
  cases h : e.buyerName with
  | none => simp [buyerNameTruthy, h]
  | some s => simp [buyerNameTruthy, h]

theorem txMatches_newCommissionTx (e : Entity) (now : Nat) (freshId : String) :
    txMatches e.id (newCommissionTx e now freshId) = true := by
  simp [txMatches, newCommissionTx]

theorem find?_buyer_name {e : Entity} {clients : List Client} {buyer : Client}
    (h : clients.find? (fun c => e.buyerName = some c.name) = some buyer) :
    e.buyerName = some buyer.name := by
  have hp := List.find?_some h
  simpa using hp

/-- Shared analysis of the step-3 `find? = some buyer` branch: under distinct
document ids, with the scan finished without early return, the written state
carries exactly one commission transaction, and every such transaction is the
fresh one and lives on a client named after the buyer. -/
theorem sync_step3_some_spec (e : Entity) (now : Nat) (freshId : String)
    (clients : List Client) (buyer : Client)
    (hnd : (clients.map Client.id).Nodup)
    (hfalse : (syncScan e now clients).2 = false)
    (hfind : clients.find? (fun c => e.buyerName = some c.name) = some buyer) :
    commissionTxCount e.id
        ((syncScan e now clients).1.map fun c => if c.id = buyer.id then
          { c with transactions := buyer.transactions ++ [newCommissionTx e now freshId],
                   isBuyer := some true } else c) = 1 ∧
      ∀ c ∈ (syncScan e now clients).1.map fun c => if c.id = buyer.id then
          { c with transactions := buyer.transactions ++ [newCommissionTx e now freshId],
                   isBuyer := some true } else c,
        ∀ t ∈ c.transactions, txMatches e.id t = true →
          t = newCommissionTx e now freshId ∧ e.buyerName = some c.name ∧
            t.amount = -commissionOf e := by
  have hclean := syncScan_false_clean e now clients hfalse
  have hbmem : buyer ∈ clients := List.mem_of_find?_eq_some hfind
  have hbname : e.buyerName = some buyer.name := find?_buyer_name hfind
  have hT : buyer.transactions.countP (txMatches e.id) = 0 :=
    syncScan_false_orig e now clients hfalse buyer hbmem hbname
  have hmem : buyer.id ∈ (syncScan e now clients).1.map Client.id := by
    rw [syncScan_map_id]
    exact List.mem_map_of_mem Client.id hbmem
  have hndL : ((syncScan e now clients).1.map Client.id).Nodup := by
    rw [syncScan_map_id]; exact hnd
  obtain ⟨hcnt, hmm⟩ := map_write_spec e.id buyer.id buyer.transactions
    (newCommissionTx e now freshId) (txMatches_newCommissionTx e now freshId)
    (syncScan e now clients).1 hclean hndL hmem hT
  refine ⟨hcnt, ?_⟩
  intro c hc t ht hmt
  obtain ⟨heq, c₀, hc₀, hbid, hname⟩ := hmm c hc t ht hmt
  refine ⟨heq, ?_, by rw [heq]; simp [newCommissionTx]⟩
  obtain ⟨orig, horig, hoid, honame⟩ := syncScan_shape e now clients c₀ hc₀
  have horigbuyer : orig = buyer :=
    List.inj_on_of_nodup_map hnd horig hbmem (by rw [← hoid, hbid])
  rw [hname, honame, horigbuyer]
  exact hbname

/-- Master correctness statement for `syncBuyerCommission`: under distinct
document ids and at most one pre-existing commission transaction, the result
carries at most one commission transaction for `e`, and every remaining one
lives on a client named `e.buyerName` and has amount `-commissionOf e`. -/
theorem syncBuyerCommission_master (e : Entity) (uid : String) (now : Nat)
    (freshId newClientId : String) (clients : List Client)
    (hnd : (clients.map Client.id).Nodup)
    (hone : commissionTxCount e.id clients ≤ 1) :
    commissionTxCount e.id (syncBuyerCommission e uid now freshId newClientId clients) ≤ 1 ∧
      ∀ c ∈ syncBuyerCommission e uid now freshId newClientId clients,
        ∀ t ∈ c.transactions, txMatches e.id t = true →
          e.buyerName = some c.name ∧ t.amount = -commissionOf e := by
  by_cases hf : (syncScan e now clients).2 = true
  · obtain ⟨hcnt, hmm⟩ := syncScan_spec e now clients hone
    simp only [syncBuyerCommission, hf, ite_true]
    exact ⟨hcnt, hmm⟩
  · have hfalse : (syncScan e now clients).2 = false := by simpa using hf
    have hclean := syncScan_false_clean e now clients hfalse
    simp only [syncBuyerCommission, hfalse, Bool.false_eq_true, ite_false]
    by_cases hg : 0 < commissionOf e ∧ buyerNameTruthy e
    · rw [if_pos hg]
      cases hfind : clients.find? (fun c => e.buyerName = some c.name) with
      | some buyer =>
        simp only [hfind]
        obtain ⟨hcnt, hmm⟩ := sync_step3_some_spec e now freshId clients buyer hnd hfalse hfind
        refine ⟨le_of_eq hcnt, ?_⟩
        intro c hc t ht hmt
        exact (hmm c hc t ht hmt).2
      | none =>
        simp only [hfind]
        obtain ⟨s, hs, hsne⟩ := (buyerNameTruthy_iff e).mp hg.2
        constructor
        · rw [commissionTxCount, List.map_append, List.sum_append]
          have h0 : ((syncScan e now clients).1.map (txCount e.id)).sum = 0 := by
            rw [List.sum_eq_zero_iff]
            intro x hx
            obtain ⟨c, hc, hcx⟩ := List.mem_map.mp hx
            rw [← hcx]; exact hclean c hc
          rw [h0]
          simp [txCount, List.countP_cons, txMatches_newCommissionTx]
        · intro c hc t ht hmt
          rcases List.mem_append.mp hc with hc | hc
          · exact absurd hmt ((txCount_eq_zero_iff _ _).mp (hclean c hc) t ht)
          · have hceq := List.mem_singleton.mp hc
            rw [hceq] at ht ⊢
            have hteq : t = newCommissionTx e now freshId := by simpa using ht
            constructor
            · simp [hs]
            · rw [hteq]; simp [newCommissionTx]
    · rw [if_neg hg]
      constructor
      · have h0 : commissionTxCount e.id (syncScan e now clients).1 = 0 :=
          (commissionTxCount_eq_zero_iff _ _).mpr hclean
        omega
      · intro c hc t ht hmt
        exact absurd hmt ((txCount_eq_zero_iff _ _).mp (hclean c hc) t ht)

theorem foldl_add_totalValue (a : ℚ) (L : List Lot) :
    L.foldl (fun sum l => sum + l.totalValue) a = a + (L.map Lot.totalValue).sum := by
  induction L generalizing a with
  | nil => simp
  | cons l ls ih => simp [ih, add_assoc]

theorem activeLotsTotal_eq_sum (lots : List Lot) :
    activeLotsTotal lots = ((lots.filter (fun l => !l.isArchived)).map Lot.totalValue).sum := by
  rw [activeLotsTotal, foldl_add_totalValue, zero_add]

/-- C1 (at-most-one commission invariant): starting from an advance-client
state with distinct document ids carrying at most one commission transaction
for entity `e` (lot mutations never touch client documents, so any lot
mutations before the call are absorbed into `e` itself), `syncBuyerCommission`
leaves at most one transaction with `entityId = e.id` across all clients, and
any client still carrying one is named `e.buyerName`. -/
theorem claim_C1_at_most_one_commission (e : Entity) (uid : String) (now : Nat)
    (freshId newClientId : String) (clients : List Client)
    (hnd : (clients.map Client.id).Nodup)
    (hone : commissionTxCount e.id clients ≤ 1) :
    commissionTxCount e.id (syncBuyerCommission e uid now freshId newClientId clients) ≤ 1 ∧
      ∀ c ∈ syncBuyerCommission e uid now freshId newClientId clients,
        0 < txCount e.id c → e.buyerName = some c.name := by
  obtain ⟨hcnt, hmm⟩ := syncBuyerCommission_master e uid now freshId newClientId clients hnd hone
  refine ⟨hcnt, ?_⟩
  intro c hc hpos
  have hpos' : 0 < c.transactions.countP (txMatches e.id) := hpos
  obtain ⟨t, ht, hmt⟩ := List.countP_pos.mp hpos'
  exact (hmm c hc t ht hmt).1

/-- C2 (commission formula): the commission `syncBuyerCommission` computes is
`0.005` times the sum of `totalValue` over the entity's non-archived lots, and
every commission transaction it leaves persisted carries the negation of that
value as its amount. -/
theorem claim_C2_commission_formula (e : Entity) (uid : String) (now : Nat)
    (freshId newClientId : String) (clients : List Client)
    (hnd : (clients.map Client.id).Nodup)
    (hone : commissionTxCount e.id clients ≤ 1) :
    commissionOf e =
        5 / 1000 * ((e.lots.filter (fun l => !l.isArchived)).map Lot.totalValue).sum ∧
      ∀ c ∈ syncBuyerCommission e uid now freshId newClientId clients,
        ∀ t ∈ c.transactions, txMatches e.id t = true →
          t.amount =
            -(5 / 1000 * ((e.lots.filter (fun l => !l.isArchived)).map Lot.totalValue).sum) := by
  have hform : commissionOf e =
      5 / 1000 * ((e.lots.filter (fun l => !l.isArchived)).map Lot.totalValue).sum := by
    rw [commissionOf, activeLotsTotal_eq_sum, mul_comm]
  obtain ⟨-, hmm⟩ := syncBuyerCommission_master e uid now freshId newClientId clients hnd hone
  refine ⟨hform, ?_⟩
  intro c hc t ht hmt
  rw [(hmm c hc t ht hmt).2, hform]

/-- The scan leaves every client clean of commission transactions for `e`
whenever the computed commission is not positive and at most one such
transaction existed beforehand (Case A removes it and returns; Case B removes
strays). -/
theorem syncScan_nonpos_clean (e : Entity) (now : Nat) (cs : List Client)
    (hnp : ¬0 < commissionOf e) (hone : commissionTxCount e.id cs ≤ 1) :
    ∀ c' ∈ (syncScan e now cs).1, txCount e.id c' = 0 := by
  induction cs with
  | nil => intro c' hc'; simp [syncScan] at hc'
  | cons c rest ih =>
    rw [commissionTxCount_cons] at hone
    intro c' hc'
    by_cases h1 : hasCommissionTx e.id c = true
    · have hcpos : ¬txCount e.id c = 0 := (hasCommissionTx_iff _ _).mp h1
      have hrest0 : commissionTxCount e.id rest = 0 := by omega
      have hrestclean : ∀ c'' ∈ rest, txCount e.id c'' = 0 :=
        (commissionTxCount_eq_zero_iff _ _).mp hrest0
      by_cases h2 : e.buyerName = some c.name
      · simp only [syncScan, h1, h2, hnp, if_true, ite_true, ite_false] at hc'
        rcases List.mem_cons.mp hc' with hc' | hc'
        · rw [hc']; exact txCount_strip _ _
        · exact hrestclean c' hc'
      · simp only [syncScan, h1, h2, if_true, ite_true, ite_false] at hc'
        rcases List.mem_cons.mp hc' with hc' | hc'
        · rw [hc']; exact txCount_strip _ _
        · exact ih (by omega) c' hc'
    · have hc0 : txCount e.id c = 0 := by
        by_contra h
        exact h1 ((hasCommissionTx_iff _ _).mpr h)
      simp only [syncScan, h1, Bool.false_eq_true, ite_false] at hc'
      rcases List.mem_cons.mp hc' with hc' | hc'
      · rw [hc']; exact hc0
      · exact ih (by omega) c' hc'

/-- C4 (zero-commission removal): when the entity's computed commission is `0`
(all lots archived or removed) and the state held at most one commission
transaction for it — in particular one held by the current buyer client —
`syncBuyerCommission` leaves no transaction with `entityId = e.id` on any
client. -/
theorem claim_C4_zero_commission_removal (e : Entity) (uid : String) (now : Nat)
    (freshId newClientId : String) (clients : List Client)
    (hzero : commissionOf e = 0)
    (hone : commissionTxCount e.id clients ≤ 1)
    (hheld : ∃ c ∈ clients, e.buyerName = some c.name ∧ hasCommissionTx e.id c = true) :
    ∀ c ∈ syncBuyerCommission e uid now freshId newClientId clients,
      ∀ t ∈ c.transactions, t.entityId ≠ some e.id := by
  have hnp : ¬0 < commissionOf e := by rw [hzero]; exact lt_irrefl 0
  have hclean := syncScan_nonpos_clean e now clients hnp hone
  have hfin : ∀ c ∈ (syncScan e now clients).1, ∀ t ∈ c.transactions,
      t.entityId ≠ some e.id := by
    intro c hc t ht
    have := (txCount_eq_zero_iff _ _).mp (hclean c hc) t ht
    simpa [txMatches] using this
  by_cases hf : (syncScan e now clients).2 = true
  · simp only [syncBuyerCommission, hf, ite_true]
    exact hfin
  · have hfalse : (syncScan e now clients).2 = false := by simpa using hf
    have hgneg : ¬(0 < commissionOf e ∧ buyerNameTruthy e = true) := fun h => hnp h.1
    simp only [syncBuyerCommission, hfalse, Bool.false_eq_true, ite_false]
    rw [if_neg hgneg]
    exact hfin

/-- C10 (empty-buyer stripping): when the entity's `buyerName` is absent or
empty and no client carries that name, `syncBuyerCommission` removes every
transaction with `entityId = e.id` from every advance client and creates
none. -/
theorem claim_C10_empty_buyer_strips (e : Entity) (uid : String) (now : Nat)
    (freshId newClientId : String) (clients : List Client)
    (hempty : e.buyerName = none ∨ e.buyerName = some "")
    (hnoclient : ∀ c ∈ clients, e.buyerName ≠ some c.name) :
    ∀ c ∈ syncBuyerCommission e uid now freshId newClientId clients,
      ∀ t ∈ c.transactions, t.entityId ≠ some e.id := by
  have hfalse := syncScan_not_returned e now clients (fun c hc _ => hnoclient c hc)
  have hclean := syncScan_false_clean e now clients hfalse
  have hgneg : ¬(0 < commissionOf e ∧ buyerNameTruthy e = true) := by
    rintro ⟨-, ht⟩
    obtain ⟨s, hs, hsne⟩ := (buyerNameTruthy_iff e).mp ht
    rcases hempty with h | h
    · rw [h] at hs; cases hs
    · rw [h] at hs
      exact hsne (Option.some.inj hs).symm
  simp only [syncBuyerCommission, hfalse, Bool.false_eq_true, ite_false]
  rw [if_neg hgneg]
  intro c hc t ht
  have := (txCount_eq_zero_iff _ _).mp (hclean c hc) t ht
  simpa [txMatches] using this

/-- C3 (buyer-change migration): when the commission transaction currently
lives only on clients not named the (new) buyer `b`, the commission is
positive and `b` nonempty, reconciliation strips every old location and leaves
exactly one commission transaction, residing on a client named `b` with the
recomputed amount `-commissionOf e`. -/
theorem claim_C3_buyer_change_migration (e : Entity) (uid : String) (now : Nat)
    (freshId newClientId : String) (clients : List Client) (b : String)
    (hnd : (clients.map Client.id).Nodup)
    (hb : e.buyerName = some b) (hbne : b ≠ "")
    (hpos : 0 < commissionOf e)
    (hstale : ∀ c ∈ clients, hasCommissionTx e.id c = true → c.name ≠ b) :
    (∀ c ∈ syncBuyerCommission e uid now freshId newClientId clients,
        c.name ≠ b → txCount e.id c = 0) ∧
      commissionTxCount e.id (syncBuyerCommission e uid now freshId newClientId clients) = 1 ∧
      ∀ c ∈ syncBuyerCommission e uid now freshId newClientId clients,
        ∀ t ∈ c.transactions, txMatches e.id t = true →
          c.name = b ∧ t.amount = -commissionOf e := by
  have hfalse : (syncScan e now clients).2 = false := by
    apply syncScan_not_returned
    intro c hc hhas heq
    rw [hb] at heq
    exact hstale c hc hhas (Option.some.inj heq).symm
  have hclean := syncScan_false_clean e now clients hfalse
  have hg : 0 < commissionOf e ∧ buyerNameTruthy e = true :=
    ⟨hpos, (buyerNameTruthy_iff e).mpr ⟨b, hb, hbne⟩⟩
  simp only [syncBuyerCommission, hfalse, Bool.false_eq_true, ite_false]
  rw [if_pos hg]
  cases hfind : clients.find? (fun c => e.buyerName = some c.name) with
  | some buyer =>
    simp only [hfind]
    obtain ⟨hcnt, hmm⟩ := sync_step3_some_spec e now freshId clients buyer hnd hfalse hfind
    refine ⟨?_, hcnt, ?_⟩
    · intro c hc hcb
      by_contra hne
      have hpos' : 0 < c.transactions.countP (txMatches e.id) := Nat.pos_of_ne_zero hne
      obtain ⟨t, ht, hmt⟩ := List.countP_pos.mp hpos'
      have hn := (hmm c hc t ht hmt).2.1
      rw [hb] at hn
      exact hcb (Option.some.inj hn).symm
    · intro c hc t ht hmt
      obtain ⟨-, hn, ha⟩ := hmm c hc t ht hmt
      rw [hb] at hn
      exact ⟨(Option.some.inj hn).symm, ha⟩
  | none =>
    simp only [hfind]
    refine ⟨?_, ?_, ?_⟩
    · intro c hc hcb
      rcases List.mem_append.mp hc with hc | hc
      · exact hclean c hc
      · exfalso
        have hceq := List.mem_singleton.mp hc
        apply hcb
        rw [hceq, hb]
        rfl
    · rw [commissionTxCount, List.map_append, List.sum_append]
      have h0 : ((syncScan e now clients).1.map (txCount e.id)).sum = 0 := by
        rw [List.sum_eq_zero_iff]
        intro x hx
        obtain ⟨c, hc, hcx⟩ := List.mem_map.mp hx
        rw [← hcx]; exact hclean c hc
      rw [h0]
      simp [txCount, List.countP_cons, txMatches_newCommissionTx]
    · intro c hc t ht hmt
      rcases List.mem_append.mp hc with hc | hc
      · exact absurd hmt ((txCount_eq_zero_iff _ _).mp (hclean c hc) t ht)
      · have hceq := List.mem_singleton.mp hc
        rw [hceq] at ht ⊢
        have hteq : t = newCommissionTx e now freshId := by simpa using ht
        refine ⟨by rw [hb]; rfl, ?_⟩
        rw [hteq]
        simp [newCommissionTx]

theorem computeClientBalance_foldl (a : ℚ) (L : List Transaction) :
    L.foldl (fun acc t => acc + t.amount) a = a + (L.map Transaction.amount).sum := by
  induction L generalizing a with
  | nil => simp
  | cons t ts ih => simp [ih, add_assoc]

/-- C5 (balance is sum of amounts): the client balance is the sum of the
transaction amounts, the empty list yields `0`, and the result is invariant
under permutation of the list. -/
theorem claim_C5_balance_is_sum (L L' : List Transaction) (hperm : L.Perm L') :
    computeClientBalance L = (L.map Transaction.amount).sum ∧
      computeClientBalance ([] : List Transaction) = 0 ∧
      computeClientBalance L = computeClientBalance L' := by
  have h1 : ∀ M : List Transaction,
      computeClientBalance M = (M.map Transaction.amount).sum := by
    intro M
    rw [computeClientBalance, computeClientBalance_foldl, zero_add]
  refine ⟨h1 L, rfl, ?_⟩
  rw [h1 L, h1 L', (hperm.map Transaction.amount).sum_eq]

/-- C6 (settlement zeroes balance): with `total` the client's current balance,
`confirmSettleAndArchive` appends to the client's document exactly the one
balancing transaction of amount `-total`, so the resulting list sums to `0`,
and sets `isArchived` with `archiveType` naming the namespace (advances
first, else work) that holds the client's id. -/
theorem claim_C6_settlement_zeroes_balance (advanceClients workClients : List Client)
    (client : Client) (total : ℚ) (now : Nat)
    (htotal : total = computeClientBalance client.transactions)
    (hne : total ≠ 0) :
    (advanceClients.any (fun c => c.id = client.id) = true →
      ∀ c ∈ (confirmSettleAndArchive advanceClients workClients client total now).1,
        c.id = client.id →
          c.transactions = client.transactions ++ [settlementTx total now] ∧
            computeClientBalance c.transactions = 0 ∧
            c.isArchived = some true ∧ c.archiveType = some ArchiveType.advances) ∧
      (advanceClients.any (fun c => c.id = client.id) = false →
        workClients.any (fun c => c.id = client.id) = true →
        ∀ c ∈ (confirmSettleAndArchive advanceClients workClients client total now).2,
          c.id = client.id →
            c.transactions = client.transactions ++ [settlementTx total now] ∧
              computeClientBalance c.transactions = 0 ∧
              c.isArchived = some true ∧ c.archiveType = some ArchiveType.work) := by
  have hbal : (client.transactions.map Transaction.amount).sum = total := by
    rw [htotal, computeClientBalance, computeClientBalance_foldl, zero_add]
  have hz : computeClientBalance (client.transactions ++ [settlementTx total now]) = 0 := by
    rw [computeClientBalance, computeClientBalance_foldl, zero_add, List.map_append,
      List.sum_append, hbal]
    simp [settlementTx]
  constructor
  · intro hadv c hc hcid
    simp only [confirmSettleAndArchive, hadv, ite_true] at hc
    obtain ⟨c₀, hc₀, hcc⟩ := List.mem_map.mp hc
    by_cases h : c₀.id = client.id
    · rw [if_pos h] at hcc
      rw [← hcc]
      exact ⟨rfl, hz, rfl, rfl⟩
    · rw [if_neg h] at hcc
      rw [← hcc] at hcid
      exact absurd hcid h
  · intro hadv hwork c hc hcid
    simp only [confirmSettleAndArchive, hadv, hwork, Bool.false_eq_true, ite_false,
      ite_true] at hc
    obtain ⟨c₀, hc₀, hcc⟩ := List.mem_map.mp hc
    by_cases h : c₀.id = client.id
    · rw [if_pos h] at hcc
      rw [← hcc]
      exact ⟨rfl, hz, rfl, rfl⟩
    · rw [if_neg h] at hcc
      rw [← hcc] at hcid
      exact absurd hcid h

/-- C8 (payment sign normalization): the transaction `addPayment` appends last
always carries `amount = -|paymentData.amount|` and `isSettled = true`; in
particular inputs `300` and `-300` both yield stored amount `-300`. -/
theorem claim_C8_payment_sign_normalization (p : PaymentData) (client : Client) (now : Nat) :
    (∃ tx, (addPayment p client now).transactions.getLast? = some tx ∧
        tx.amount = -|p.amount| ∧ tx.isSettled = true) ∧
      (paymentTx { p with amount := 300 } now).amount = -300 ∧
      (paymentTx { p with amount := -300 } now).amount = -300 := by
  refine ⟨?_, by simp [paymentTx], by simp [paymentTx]⟩
  cases hl : p.linkedTransactionId with
  | none =>
    simp only [addPayment, hl]
    exact ⟨paymentTx p now, List.getLast?_concat _, rfl, rfl⟩
  | some lid =>
    by_cases hlid : lid = ""
    · simp only [addPayment, hl]
      rw [if_pos hlid]
      exact ⟨paymentTx p now, List.getLast?_concat _, rfl, rfl⟩
    · simp only [addPayment, hl]
      rw [if_neg hlid, List.map_append]
      refine ⟨if (paymentTx p now).id = lid then
          { paymentTx p now with isSettled := true } else paymentTx p now, ?_, ?_, ?_⟩
      · simpa using List.getLast?_concat
          ((client.transactions.map fun t => if t.id = lid then { t with isSettled := true } else t))
      · by_cases h : (paymentTx p now).id = lid
        · simp [h, paymentTx]
        · simp [h, paymentTx]
      · by_cases h : (paymentTx p now).id = lid
        · simp [h, paymentTx]
        · simp [h, paymentTx]

/-- C9 (restore frame): `confirmRestoreClient` routes by the collection
holding the id, sets `isArchived := false` and deletes `archiveType` on the
matching document, leaves its transactions (and every other client) untouched,
and does not touch the other collection. -/
theorem claim_C9_restore_frame (advanceClients workClients : List Client) (target : Client) :
    (advanceClients.any (fun c => c.id = target.id) = true →
      (confirmRestoreClient advanceClients workClients target).2 = workClients ∧
        List.Forall₂ (fun c c' =>
            c'.transactions = c.transactions ∧
              (c.id = target.id → c'.isArchived = some false ∧ c'.archiveType = none) ∧
              (c.id ≠ target.id → c' = c))
          advanceClients (confirmRestoreClient advanceClients workClients target).1) ∧
      (advanceClients.any (fun c => c.id = target.id) = false →
        workClients.any (fun c => c.id = target.id) = true →
        (confirmRestoreClient advanceClients workClients target).1 = advanceClients ∧
          List.Forall₂ (fun c c' =>
              c'.transactions = c.transactions ∧
                (c.id = target.id → c'.isArchived = some false ∧ c'.archiveType = none) ∧
                (c.id ≠ target.id → c' = c))
            workClients (confirmRestoreClient advanceClients workClients target).2) := by
  constructor
  · intro hadv
    have h2 : (confirmRestoreClient advanceClients workClients target).2 = workClients := by
      simp [confirmRestoreClient, hadv]
    have h1 : (confirmRestoreClient advanceClients workClients target).1 =
        advanceClients.map (fun c => if c.id = target.id then
          { c with isArchived := some false, archiveType := none } else c) := by
      simp [confirmRestoreClient, hadv]
    refine ⟨h2, ?_⟩
    rw [h1, List.forall₂_map_right_iff, List.forall₂_same]
    intro c hc
    by_cases h : c.id = target.id
    · simp [h]
    · simp [h]
  · intro hadv hwork
    have h1 : (confirmRestoreClient advanceClients workClients target).1 = advanceClients := by
      simp [confirmRestoreClient, hadv, hwork]
    have h2 : (confirmRestoreClient advanceClients workClients target).2 =
        workClients.map (fun c => if c.id = target.id then
          { c with isArchived := some false, archiveType := none } else c) := by
      simp [confirmRestoreClient, hadv, hwork]
    refine ⟨h1, ?_⟩
    rw [h2, List.forall₂_map_right_iff, List.forall₂_same]
    intro c hc
    by_cases h : c.id = target.id
    · simp [h]
    · simp [h]

/-- C7 (amended): `computeUpcomingDeadline` considers the *non-archived* lots
whose `is70Paid` is falsy and whose entity auction date exists with
`auctionDate + 15 days` strictly after `now` (the `upcomingCandidates` list),
returns a candidate with the minimal date key, and returns `none` exactly when
no lot qualifies. -/
theorem claim_C7_upcoming_deadline (entities : List Entity) (now : Nat) :
    (computeUpcomingDeadline entities now = none ↔ upcomingCandidates entities now = []) ∧
      ∀ p, computeUpcomingDeadline entities now = some p →
        p ∈ upcomingCandidates entities now ∧
          ∀ q ∈ upcomingCandidates entities now, upcomingKey p ≤ upcomingKey q := by
  have hperm := List.perm_insertionSort upcomingLE (upcomingCandidates entities now)
  have hsorted := List.sorted_insertionSort upcomingLE (upcomingCandidates entities now)
  constructor
  · rw [computeUpcomingDeadline, List.head?_eq_none_iff]
    constructor
    · intro h
      rw [h] at hperm
      exact hperm.symm.eq_nil
    · intro h
      rw [h]
      rfl
  · intro p hp
    rw [computeUpcomingDeadline] at hp
    cases hs : (upcomingCandidates entities now).insertionSort upcomingLE with
    | nil => rw [hs] at hp; cases hp
    | cons a tl =>
      rw [hs] at hp hperm hsorted
      have hpa : a = p := by simpa using hp
      subst hpa
      obtain ⟨hle, -⟩ := List.sorted_cons.mp hsorted
      constructor
      · exact hperm.subset (List.mem_cons_self ..)
      · intro q hq
        have hq' : q ∈ a :: tl := hperm.symm.subset hq
        rcases List.mem_cons.mp hq' with h | h
        · simp [h]
        · exact hle q h

/-- Witness for C1 at concrete data: client `Ahmed` already holds the single
commission transaction of entity `E1`. -/
theorem claim_C1_witness :
    ((([egAhmed] : List Client).map Client.id).Nodup ∧
        commissionTxCount egEntity.id [egAhmed] ≤ 1) ∧
      commissionTxCount egEntity.id (syncBuyerCommission egEntity "u1" 0 "F" "N" [egAhmed]) ≤ 1 ∧
        ∀ c ∈ syncBuyerCommission egEntity "u1" 0 "F" "N" [egAhmed],
          0 < txCount egEntity.id c → egEntity.buyerName = some c.name := by
  have hnd : (([egAhmed] : List Client).map Client.id).Nodup := by simp
  have hone : commissionTxCount egEntity.id [egAhmed] ≤ 1 := by decide
  exact ⟨⟨hnd, hone⟩,
    claim_C1_at_most_one_commission egEntity "u1" 0 "F" "N" [egAhmed] hnd hone⟩

/-- Witness for C2 at the spec's §8 example: active lot values 1000/2000/500
with an archived lot of 10000 give commission `17.5 = 35/2`. -/
theorem claim_C2_witness :
    (commissionOf egEntity =
        5 / 1000 * ((egEntity.lots.filter (fun l => !l.isArchived)).map Lot.totalValue).sum ∧
      ∀ c ∈ syncBuyerCommission egEntity "u1" 0 "F" "N" [],
        ∀ t ∈ c.transactions, txMatches egEntity.id t = true →
          t.amount =
            -(5 / 1000 * ((egEntity.lots.filter (fun l => !l.isArchived)).map Lot.totalValue).sum)) ∧
      commissionOf egEntity = 35 / 2 := by
  refine ⟨claim_C2_commission_formula egEntity "u1" 0 "F" "N" []
    (by simp) (by simp [commissionTxCount]), ?_⟩
  norm_num [commissionOf, activeLotsTotal, egEntity, egLot1, egLot2, egLot3, egLotArchived]

/-- Witness for C3 at concrete data: the commission lives on `Ahmed`, the
buyer is changed to `Sara`. -/
theorem claim_C3_witness :
    (egEntitySara.buyerName = some "Sara" ∧ 0 < commissionOf egEntitySara ∧
        ∀ c ∈ ([egAhmed] : List Client), hasCommissionTx egEntitySara.id c = true →
          c.name ≠ "Sara") ∧
      (∀ c ∈ syncBuyerCommission egEntitySara "u1" 0 "F" "N" [egAhmed],
          c.name ≠ "Sara" → txCount egEntitySara.id c = 0) ∧
        commissionTxCount egEntitySara.id
            (syncBuyerCommission egEntitySara "u1" 0 "F" "N" [egAhmed]) = 1 ∧
        ∀ c ∈ syncBuyerCommission egEntitySara "u1" 0 "F" "N" [egAhmed],
          ∀ t ∈ c.transactions, txMatches egEntitySara.id t = true →
            c.name = "Sara" ∧ t.amount = -commissionOf egEntitySara := by
  have hnd : (([egAhmed] : List Client).map Client.id).Nodup := by simp
  have hb : egEntitySara.buyerName = some "Sara" := rfl
  have hbne : ("Sara" : String) ≠ "" := by decide
  have hpos : 0 < commissionOf egEntitySara := by
    norm_num [commissionOf, activeLotsTotal, egEntitySara, egEntity,
      egLot1, egLot2, egLot3, egLotArchived]
  have hstale : ∀ c ∈ ([egAhmed] : List Client),
      hasCommissionTx egEntitySara.id c = true → c.name ≠ "Sara" := by
    intro c hc _
    rw [List.mem_singleton.mp hc]
    decide
  exact ⟨⟨hb, hpos, hstale⟩,
    claim_C3_buyer_change_migration egEntitySara "u1" 0 "F" "N" [egAhmed] "Sara"
      hnd hb hbne hpos hstale⟩

/-- Witness for C4 at concrete data: the only lot is archived, `Ahmed` holds
the stale commission transaction. -/
theorem claim_C4_witness :
    (commissionOf egEntityArchivedOnly = 0 ∧
        commissionTxCount egEntityArchivedOnly.id [egAhmed] ≤ 1 ∧
        (∃ c ∈ ([egAhmed] : List Client), egEntityArchivedOnly.buyerName = some c.name ∧
          hasCommissionTx egEntityArchivedOnly.id c = true)) ∧
      ∀ c ∈ syncBuyerCommission egEntityArchivedOnly "u1" 0 "F" "N" [egAhmed],
        ∀ t ∈ c.transactions, t.entityId ≠ some egEntityArchivedOnly.id := by
  have hzero : commissionOf egEntityArchivedOnly = 0 := by
    norm_num [commissionOf, activeLotsTotal, egEntityArchivedOnly, egEntity, egLotArchived]
  have hone : commissionTxCount egEntityArchivedOnly.id [egAhmed] ≤ 1 := by decide
  have hheld : ∃ c ∈ ([egAhmed] : List Client),
      egEntityArchivedOnly.buyerName = some c.name ∧
        hasCommissionTx egEntityArchivedOnly.id c = true :=
    ⟨egAhmed, by simp, rfl, by decide⟩
  exact ⟨⟨hzero, hone, hheld⟩,
    claim_C4_zero_commission_removal egEntityArchivedOnly "u1" 0 "F" "N" [egAhmed]
      hzero hone hheld⟩

/-- Witness for C10 at concrete data: buyer name absent, `Ahmed` still holds a
commission transaction for `E1`. -/
theorem claim_C10_witness :
    ((egEntityNoBuyer.buyerName = none ∨ egEntityNoBuyer.buyerName = some "") ∧
        (∀ c ∈ ([egAhmed] : List Client), egEntityNoBuyer.buyerName ≠ some c.name)) ∧
      ∀ c ∈ syncBuyerCommission egEntityNoBuyer "u1" 0 "F" "N" [egAhmed],
        ∀ t ∈ c.transactions, t.entityId ≠ some egEntityNoBuyer.id := by
  have hempty : egEntityNoBuyer.buyerName = none ∨ egEntityNoBuyer.buyerName = some "" :=
    Or.inl rfl
  have hnoclient : ∀ c ∈ ([egAhmed] : List Client),
      egEntityNoBuyer.buyerName ≠ some c.name := by
    intro c hc
    simp [egEntityNoBuyer, egEntity]
  exact ⟨⟨hempty, hnoclient⟩,
    claim_C10_empty_buyer_strips egEntityNoBuyer "u1" 0 "F" "N" [egAhmed] hempty hnoclient⟩

/-- Witness for C5 at the spec's P1 example `[+500, -200, +150]` (balance 450),
against the permutation that swaps the first two transactions. -/
theorem claim_C5_witness :
    ([egTxA, egTxB, egTxC].Perm [egTxB, egTxA, egTxC] ∧
        computeClientBalance [egTxA, egTxB, egTxC] = 450) ∧
      computeClientBalance [egTxA, egTxB, egTxC] =
          ([egTxA, egTxB, egTxC].map Transaction.amount).sum ∧
        computeClientBalance ([] : List Transaction) = 0 ∧
        computeClientBalance [egTxA, egTxB, egTxC] =
          computeClientBalance [egTxB, egTxA, egTxC] := by
  have hperm : [egTxA, egTxB, egTxC].Perm [egTxB, egTxA, egTxC] :=
    List.Perm.swap egTxB egTxA [egTxC]
  refine ⟨⟨hperm, ?_⟩, claim_C5_balance_is_sum [egTxA, egTxB, egTxC] [egTxB, egTxA, egTxC] hperm⟩
  norm_num [computeClientBalance, egTxA, egTxB, egTxC]

/-- Witness for C6 at concrete data: client `Ali` with balance `300` in the
advances namespace. -/
theorem claim_C6_witness :
    ((300 : ℚ) = computeClientBalance egClientBal.transactions ∧ (300 : ℚ) ≠ 0) ∧
      (([egClientBal] : List Client).any (fun c => c.id = egClientBal.id) = true →
        ∀ c ∈ (confirmSettleAndArchive [egClientBal] [] egClientBal 300 7).1,
          c.id = egClientBal.id →
            c.transactions = egClientBal.transactions ++ [settlementTx 300 7] ∧
              computeClientBalance c.transactions = 0 ∧
              c.isArchived = some true ∧ c.archiveType = some ArchiveType.advances) := by
  have htotal : (300 : ℚ) = computeClientBalance egClientBal.transactions := by
    norm_num [computeClientBalance, egClientBal, egTxA, egTxB]
  have hne : (300 : ℚ) ≠ 0 := by norm_num
  exact ⟨⟨htotal, hne⟩,
    (claim_C6_settlement_zeroes_balance [egClientBal] [] egClientBal 300 7 htotal hne).1⟩

/-- Witness for C7 at concrete data: the lot of the earlier auction (`1000`)
beats the later one (`2000`). -/
theorem claim_C7_witness :
    computeUpcomingDeadline [wEntEarly, wEntLate] 0 = some (wLotEarly, some 1000) ∧
      (wLotEarly, some 1000) ∈ upcomingCandidates [wEntEarly, wEntLate] 0 ∧
        ∀ q ∈ upcomingCandidates [wEntEarly, wEntLate] 0,
          upcomingKey (wLotEarly, some 1000) ≤ upcomingKey q := by
  have h : computeUpcomingDeadline [wEntEarly, wEntLate] 0 = some (wLotEarly, some 1000) := rfl
  exact ⟨h, (claim_C7_upcoming_deadline [wEntEarly, wEntLate] 0).2 (wLotEarly, some 1000) h⟩

/-- Witness for C9 at concrete data: restoring the archived advances client. -/
theorem claim_C9_witness :
    (([egArchivedClient] : List Client).any (fun c => c.id = egArchivedClient.id) = true ∧
      (confirmRestoreClient [egArchivedClient] [] egArchivedClient).2 = [] ∧
        List.Forall₂ (fun c c' =>
            c'.transactions = c.transactions ∧
              (c.id = egArchivedClient.id → c'.isArchived = some false ∧ c'.archiveType = none) ∧
              (c.id ≠ egArchivedClient.id → c' = c))
          [egArchivedClient] (confirmRestoreClient [egArchivedClient] [] egArchivedClient).1) := by
  have hadv : ([egArchivedClient] : List Client).any
      (fun c => c.id = egArchivedClient.id) = true := by decide
  obtain ⟨h2, hf⟩ := (claim_C9_restore_frame [egArchivedClient] [] egArchivedClient).1 hadv
  exact ⟨hadv, h2, hf⟩

/-- C7 counterexample: a single archived lot that is unpaid and whose entity
deadline (`auctionDate + 15 days`) lies strictly in the future.  Per the
claim's filter it qualifies and, being the only lot, would be returned; the
code excludes archived lots up front and returns `none`. -/
theorem claim_C7_counterexample :
    computeUpcomingDeadline [cexEntity] 0 = none ∧
      cexArchivedLot ∈ cexEntity.lots ∧
      lotIs70Paid cexArchivedLot = false ∧
      (findLotEntity [cexEntity] cexArchivedLot).bind Entity.auctionDate = some 0 ∧
      (0 : Nat) < 0 + 15 * msPerDay := by
  refine ⟨rfl, ?_, rfl, rfl, by norm_num [msPerDay]⟩
  simp [cexEntity]

end Al3bara
